import Mathlib

/-!
Shallow embedding of the routing/termination state machine (`Router`,
`src/editor/src/plugins/sim/new_des_model/router.rs`) and the event-sourced
metrics aggregator (`Analytics` and its `Window` helper,
`src/sim/src/analytics.rs`).

Conventions of the embedding:
* `geom::Distance` is modelled as `Int`; `geom::Time` and `geom::Duration`
  (f64 seconds) as `ℚ` so that the literal `0.1`-second epsilon is exact.
* `usize` arithmetic uses explicit wrapping modulo `2 ^ 64`
  (release-build semantics of Rust `+=`/`-=`; debug builds abort instead).
* A Rust panic (`unwrap`, `panic!`, indexing) is modelled by returning `none`
  from an `Option`-valued function.
* External collaborators (`map_model::Map`, `ParkingSimState`) are consumed
  through records of functions, exactly at the call surface the source uses.
* `BTreeMap`s whose only observable use is keyed lookup are modelled as total
  functions with the `or_insert` default; histogram accumulators
  (`DurationHistogram`) are modelled as multisets of their added samples.
-/

namespace ABStreet

/-! ### External identifier types (map_model / sim) -/

structure TurnID where
  parent : Nat
  src : Nat
  dst : Nat
deriving DecidableEq

/-- `map_model::Traversable`: one lane-like segment or one turn. -/
inductive Traversable where
  | Lane (id : Nat)
  | Turn (t : TurnID)
deriving DecidableEq

/-- `Traversable::as_lane` panics on a turn; the panic is the `none` case. -/
def Traversable.as_lane : Traversable → Option Nat
  | .Lane l => some l
  | .Turn _ => none

/-- `map_model::Position`: a lane plus a distance along it. -/
structure Position where
  lane : Nat
  dist : Int
deriving DecidableEq

def Position.dist_along (p : Position) : Int := p.dist

structure Vehicle where
  id : Nat
deriving DecidableEq

/-- Parking spots are opaque identifiers for the Router. -/
abbrev ParkingSpot := Nat

/-- The slice of `map_model::Map` the embedded code consumes. -/
structure Map where
  length : Traversable → Int
  find_closest_lane : Nat → Option Nat
  equiv_pos : Position → Nat → Position
  laneParent : Nat → Nat
  get_turn_group : TurnID → Option Nat

/-- The parking-occupancy collaborator, consumed at its boundary. -/
structure ParkingSimState where
  is_free : ParkingSpot → Bool
  get_first_free_spot : Position → Vehicle → Option ParkingSpot
  spot_to_driving_pos : ParkingSpot → Vehicle → Nat → Map → Position

/-! ### Router (`router.rs`) -/

inductive ActionAtEnd where
  | Vanish
  | StartParking (spot : ParkingSpot)
  | GotoLaneEnd
deriving DecidableEq

inductive Goal where
  | ParkNearBuilding (target : Nat) (spot : Option (ParkingSpot × Int))
  | StopSuddenly (end_dist : Int)
deriving DecidableEq

structure Router where
  path : List Traversable
  goal : Goal
deriving DecidableEq

/-- `Router::stop_suddenly`; the `unwrap` on an empty path and the explicit
`panic!` when `end_dist >= path.last().length(map)` are the `none` cases. -/
def Router.stop_suddenly (path : List Traversable) (end_dist : Int) (map : Map) :
    Option Router :=
  match path.getLast? with
  | none => none
  | some last =>
    if map.length last ≤ end_dist then none
    else some ⟨path, Goal.StopSuddenly end_dist⟩

def Router.park_near (path : List Traversable) (bldg : Nat) : Router :=
  ⟨path, Goal.ParkNearBuilding bldg none⟩

def Router.last_step (r : Router) : Bool := r.path.length = 1

/-- Free function `find_parking_spot` of `router.rs`. -/
def find_parking_spot (driving_pos : Position) (vehicle : Vehicle) (map : Map)
    (parking : ParkingSimState) : Option (ParkingSpot × Int) :=
  match map.find_closest_lane driving_pos.lane with
  | none => none
  | some parking_lane =>
    match parking.get_first_free_spot (map.equiv_pos driving_pos parking_lane) vehicle with
    | none => none
    | some spot =>
      some (spot, (parking.spot_to_driving_pos spot vehicle driving_pos.lane map).dist_along)

/-- `Router::maybe_handle_end`. The result is `none` on a panic
(`self.path[0]` on an empty path, or `as_lane` on a turn); otherwise it is the
returned `Option<ActionAtEnd>` together with the goal after the call
(the source mutates `spot` in place). -/
def Router.maybe_handle_end (r : Router) (front : Int) (vehicle : Vehicle)
    (parking : ParkingSimState) (map : Map) : Option (Option ActionAtEnd × Goal) :=
  match r.goal with
  | Goal.StopSuddenly end_dist =>
    some (if end_dist = front then some ActionAtEnd.Vanish else none, r.goal)
  | Goal.ParkNearBuilding target spot =>
    let need_new_spot : Bool :=
      match spot with
      | some (s, _) => parking.is_free s
      | none => true
    if need_new_spot then
      match r.path.head? with
      | none => none
      | some step =>
        match step.as_lane with
        | none => none
        | some lane =>
          match find_parking_spot ⟨lane, front⟩ vehicle map parking with
          | some new_spot =>
            some (if new_spot.2 = front then some (ActionAtEnd.StartParking new_spot.1) else none,
              Goal.ParkNearBuilding target (some new_spot))
          | none =>
            some (some ActionAtEnd.Vanish, Goal.ParkNearBuilding target spot)
    else
      match spot with
      | some sd =>
        some (if sd.2 = front then some (ActionAtEnd.StartParking sd.1) else none, r.goal)
      | none => none

/-- `Router::advance`: pops the front step and, when exactly one step remains,
invokes `maybe_handle_end` at distance zero for its side effect. The returned
`Bool` records whether that terminal-action resolution was triggered. -/
def Router.advance (r : Router) (vehicle : Vehicle) (parking : ParkingSimState)
    (map : Map) : Option (Traversable × Router × Bool) :=
  match r.path with
  | [] => none
  | prev :: rest =>
    if rest.length = 1 then
      match Router.maybe_handle_end ⟨rest, r.goal⟩ 0 vehicle parking map with
      | none => none
      | some (_, goal1) => some (prev, ⟨rest, goal1⟩, true)
    else some (prev, ⟨rest, r.goal⟩, false)

/-- Iterate `advance`, collecting each returned step together with the flag
saying whether that advance triggered terminal-action resolution. -/
def advanceN (vehicle : Vehicle) (parking : ParkingSimState) (map : Map) :
    Nat → Router → Option (List (Traversable × Bool) × Router)
  | 0, r => some ([], r)
  | k + 1, r =>
    match r.advance vehicle parking map with
    | none => none
    | some (prev, r1, trig) =>
      match advanceN vehicle parking map k r1 with
      | none => none
      | some (l, r2) => some ((prev, trig) :: l, r2)

/-- Routers reachable from a well-formed construction by public operations,
where `advance` is only invoked with at least two remaining segments (the
caller contract of the simulation loop). -/
inductive Reachable (vehicle : Vehicle) (parking : ParkingSimState) (map : Map) :
    Router → Prop
  | construct_stop (path : List Traversable) (end_dist : Int) (r : Router) :
      Router.stop_suddenly path end_dist map = some r →
      Reachable vehicle parking map r
  | construct_park (path : List Traversable) (bldg : Nat) :
      path ≠ [] →
      Reachable vehicle parking map (Router.park_near path bldg)
  | step_advance (r : Router) (prev : Traversable) (r1 : Router) (trig : Bool) :
      Reachable vehicle parking map r →
      2 ≤ r.path.length →
      r.advance vehicle parking map = some (prev, r1, trig) →
      Reachable vehicle parking map r1
  | step_handle (r : Router) (front : Int) (out : Option ActionAtEnd) (goal1 : Goal) :
      Reachable vehicle parking map r →
      r.maybe_handle_end front vehicle parking map = some (out, goal1) →
      Reachable vehicle parking map ⟨r.path, goal1⟩

/-! ### Concrete collaborators used by witnesses and counterexamples -/

def vC : Vehicle := ⟨0⟩

/-- Occupancy collaborator reporting every spot taken, spot `7` returned by
the first-free-spot search, spots projecting to distance `9`. -/
def parkC : ParkingSimState :=
  { is_free := fun _ => false
    get_first_free_spot := fun _ _ => some 7
    spot_to_driving_pos := fun _ _ _ _ => ⟨0, 9⟩ }

/-- Same collaborator, but every spot is reported free. -/
def parkFree : ParkingSimState :=
  { parkC with is_free := fun _ => true }

def mapC : Map :=
  { length := fun _ => 100
    find_closest_lane := fun _ => some 5
    equiv_pos := fun p _ => p
    laneParent := fun _ => 0
    get_turn_group := fun _ => none }

/-- A Router already holding a cached spot `3` at distance `5`. -/
def routerC1 : Router :=
  ⟨[Traversable.Lane 0], Goal.ParkNearBuilding 0 (some (3, 5))⟩

/-! ### usize arithmetic (wrapping, release-build semantics) -/

def USIZE : Nat := 2 ^ 64

def wrapInc (n : Nat) : Nat := (n + 1) % USIZE

def wrapDec (n : Nat) : Nat := (n + (USIZE - 1)) % USIZE

/-! ### Window (`analytics.rs`, bottom) -/

/-- `Window`: oldest-first queue of timestamps plus a fixed window length. -/
structure Window where
  times : List ℚ
  window_size : ℚ

def Window.new (window_size : ℚ) : Window := ⟨[], window_size⟩

/-- `Window::count`: evict stale front entries, return the retained count
(together with the mutated queue). -/
def Window.count (w : Window) (endT : ℚ) : Window × Nat :=
  let ts := w.times.dropWhile (fun t => decide (w.window_size < endT - t))
  (⟨ts, w.window_size⟩, ts.length)

/-- `Window::add`: push the timestamp, then count at that time. -/
def Window.add (w : Window) (time : ℚ) : Window × Nat :=
  Window.count ⟨w.times ++ [time], w.window_size⟩ time

/-- One public `Window` operation: an addition or a count query. -/
inductive WOp where
  | add (t : ℚ)
  | count (t : ℚ)

def WOp.time : WOp → ℚ
  | .add t => t
  | .count t => t

/-- The timestamps added by a sequence of operations, in order. -/
def addsOf : List WOp → List ℚ
  | [] => []
  | .add t :: rest => t :: addsOf rest
  | .count _ :: rest => addsOf rest

def Window.step (w : Window) : WOp → Window
  | .add t => (w.add t).1
  | .count t => (w.count t).1

/-- Run a sequence of operations on a fresh `Window`. -/
def runOps (W : ℚ) (ops : List WOp) : Window :=
  ops.foldl Window.step (Window.new W)

/-! ### Analytics data model (`analytics.rs`) -/

inductive VehicleType where
  | Car
  | Bike
  | Bus
deriving DecidableEq

/-- `CarID(usize, VehicleType)`. -/
abbrev CarID := Nat × VehicleType

inductive AgentID where
  | Pedestrian (id : Nat)
  | Car (c : CarID)
deriving DecidableEq

inductive TripMode where
  | Walk
  | Bike
  | Transit
  | Drive
deriving DecidableEq

/-- Modelled from the spec: the four coarse trip modes (walking, driving,
biking, transit). `TripMode::all` lives in the sim crate outside the
excerpted sources. -/
def TripMode.all : List TripMode :=
  [TripMode.Walk, TripMode.Bike, TripMode.Transit, TripMode.Drive]

/-- `map_model::PathStep`; `as_traversable` sends both lane variants to the
underlying lane. -/
inductive PathStep where
  | Lane (l : Nat)
  | ContraflowLane (l : Nat)
  | Turn (t : TurnID)
deriving DecidableEq

def PathStep.as_traversable : PathStep → Traversable
  | .Lane l => Traversable.Lane l
  | .ContraflowLane l => Traversable.Lane l
  | .Turn t => Traversable.Turn t

/-- The slice of `map_model::Path` the embedded code consumes: its steps. -/
structure Path where
  steps : List PathStep
deriving DecidableEq

/-- The slice of `map_model::PathRequest` the embedded code consumes. -/
structure PathRequest where
  start : Position
deriving DecidableEq

/-- `sim::Event`, restricted to the variants `Analytics::event` consumes
(the source match has a catch-all for the rest). -/
inductive Event where
  | AgentEntersTraversable (a : AgentID) (dest : Traversable)
  | BusArrivedAtStop (bus : CarID) (route : Nat) (stop : Nat)
  | PedReachedBusStop (ped : Nat) (stop : Nat) (route : Nat)
  | TripFinished (trip : Nat) (mode : TripMode) (dt : ℚ)
  | TripAborted (trip : Nat)
  | IntersectionDelayMeasured (i : Nat) (delay : ℚ)
  | TripPhaseStarting (trip : Nat) (req : Option PathRequest) (metadata : String)
  | PathAmended (path : Path)
deriving DecidableEq

/-- `abstutil::Counter` modelled as a total count function; `inc` adds one
(usize, wrapping). -/
def counterInc (c : Nat → Nat) (k : Nat) : Nat → Nat :=
  fun k1 => if k1 = k then wrapInc (c k1) else c k1

structure ThruputStats where
  count_per_road : Nat → Nat
  count_per_intersection : Nat → Nat
  raw_per_road : List (ℚ × TripMode × Nat)
  raw_per_intersection : List (ℚ × TripMode × Nat)
  demand : Nat → Nat

structure Analytics where
  thruput_stats : ThruputStats
  test_expectations : List Event
  bus_arrivals : List (ℚ × CarID × Nat × Nat)
  bus_passengers_waiting : List (ℚ × Nat × Nat)
  finished_trips : List (ℚ × Nat × Option TripMode × ℚ)
  trip_log : List (ℚ × Nat × Option PathRequest × String)
  intersection_delays : Nat → List (ℚ × ℚ)
  record_anything : Bool

def Analytics.new : Analytics :=
  { thruput_stats :=
      { count_per_road := fun _ => 0
        count_per_intersection := fun _ => 0
        raw_per_road := []
        raw_per_intersection := []
        demand := fun _ => 0 }
    test_expectations := []
    bus_arrivals := []
    bus_passengers_waiting := []
    finished_trips := []
    trip_log := []
    intersection_delays := fun _ => []
    record_anything := true }

/-- `impl Default for Analytics`: like `new`, but ingestion disabled. -/
def Analytics.default : Analytics :=
  { Analytics.new with record_anything := false }

/-- The per-step demand update inside `Analytics::record_demand`. -/
def demandStepUpd (map : Map) (d : Nat → Nat) (step : PathStep) : Nat → Nat :=
  match step.as_traversable with
  | Traversable.Turn t =>
    match map.get_turn_group t with
    | some id => fun g => if g = id then wrapInc (d g) else d g
    | none => d
  | _ => d

/-- `Analytics::record_demand`. -/
def Analytics.record_demand (a : Analytics) (path : Path) (map : Map) : Analytics :=
  { a with thruput_stats :=
      { a.thruput_stats with
        demand := path.steps.foldl (demandStepUpd map) a.thruput_stats.demand } }

/-- `Analytics::event`, the single ingestion entry point. -/
def Analytics.event (a : Analytics) (ev : Event) (time : ℚ) (map : Map) : Analytics :=
  if a.record_anything = false then a
  else
    let a1 :=
      match ev with
      | Event.AgentEntersTraversable ag dest =>
        let mode :=
          match ag with
          | AgentID.Pedestrian _ => TripMode.Walk
          | AgentID.Car c =>
            match c.2 with
            | VehicleType.Car => TripMode.Drive
            | VehicleType.Bike => TripMode.Bike
            | VehicleType.Bus => TripMode.Transit
        match dest with
        | Traversable.Lane l =>
          let r := map.laneParent l
          { a with thruput_stats :=
              { a.thruput_stats with
                count_per_road := counterInc a.thruput_stats.count_per_road r
                raw_per_road := a.thruput_stats.raw_per_road ++ [(time, mode, r)] } }
        | Traversable.Turn t =>
          let base :=
            { a with thruput_stats :=
                { a.thruput_stats with
                  count_per_intersection :=
                    counterInc a.thruput_stats.count_per_intersection t.parent
                  raw_per_intersection :=
                    a.thruput_stats.raw_per_intersection ++ [(time, mode, t.parent)] } }
          match map.get_turn_group t with
          | some id =>
            { base with thruput_stats :=
                { base.thruput_stats with
                  demand := fun g =>
                    if g = id then wrapDec (base.thruput_stats.demand g)
                    else base.thruput_stats.demand g } }
          | none => base
      | _ => a
    let a2 :=
      { a1 with test_expectations :=
          match a1.test_expectations with
          | [] => []
          | e :: rest => if ev = e then rest else e :: rest }
    let a3 :=
      match ev with
      | Event.BusArrivedAtStop bus route stop =>
        { a2 with bus_arrivals := a2.bus_arrivals ++ [(time, bus, route, stop)] }
      | _ => a2
    let a4 :=
      match ev with
      | Event.PedReachedBusStop _ stop route =>
        { a3 with bus_passengers_waiting := a3.bus_passengers_waiting ++ [(time, stop, route)] }
      | _ => a3
    let a5 :=
      match ev with
      | Event.TripFinished id mode dt =>
        { a4 with finished_trips := a4.finished_trips ++ [(time, id, some mode, dt)] }
      | Event.TripAborted id =>
        { a4 with finished_trips := a4.finished_trips ++ [(time, id, none, 0)] }
      | _ => a4
    let a6 :=
      match ev with
      | Event.IntersectionDelayMeasured id delay =>
        { a5 with intersection_delays := fun i =>
            if i = id then a5.intersection_delays i ++ [(time, delay)]
            else a5.intersection_delays i }
      | _ => a5
    match ev with
    | Event.TripPhaseStarting id maybe_req metadata =>
      { a6 with trip_log := a6.trip_log ++ [(time, id, maybe_req, metadata)] }
    | Event.TripAborted id =>
      { a6 with trip_log := a6.trip_log ++ [(time, id, none, "trip aborted for some reason")] }
    | Event.TripFinished id _ _ =>
      { a6 with trip_log := a6.trip_log ++ [(time, id, none, "trip finished")] }
    | Event.PathAmended path => Analytics.record_demand a6 path map
    | _ => a6

/-! ### Specification of the demand update (claim C2, amended) -/

/-- Movement steps of a path that map to turn group `g`. -/
def demandCountSteps (map : Map) (g : Nat) (steps : List PathStep) : Nat :=
  (steps.filter (fun step =>
    match step.as_traversable with
    | Traversable.Turn t => decide (map.get_turn_group t = some g)
    | _ => false)).length

/-- Amended demand-update specification: agent-entered-turn events apply a
wrapping usize decrement to the mapped turn group (the only decrement path);
path-amended events apply one wrapping increment per mapped movement step
(the only increment path); every other event leaves demand unchanged. -/
def demandAfter (a : Analytics) (ev : Event) (map : Map) (g : Nat) : Nat :=
  match ev with
  | Event.AgentEntersTraversable _ (Traversable.Turn t) =>
    match map.get_turn_group t with
    | some id =>
      if g = id then wrapDec (a.thruput_stats.demand g) else a.thruput_stats.demand g
    | none => a.thruput_stats.demand g
  | Event.PathAmended p =>
    (a.thruput_stats.demand g + demandCountSteps map g p.steps) % USIZE
  | _ => a.thruput_stats.demand g

/-! ### Bus arrival delays (`Analytics::bus_arrivals`, the query) -/

/-- Consecutive pairs of a list (`slice::windows(2)`). -/
def consecPairs {α : Type} (l : List α) : List (α × α) := l.zip l.tail

/-- Key insertion of a map model: append the key if it is new. -/
def insertKey {α : Type} [DecidableEq α] (acc : List α) (c : α) : List α :=
  if c ∈ acc then acc else acc ++ [c]

/-- Phase 1 of the query: the `per_bus` grouping loop, with its early break
on `*t > now` and its route filter. The `BTreeMap<CarID, Vec<_>>` is modelled
as the list of keys in first-insertion order plus a lookup function; the
per-stop result below is a multiset, so the value-iteration order of the
source's `BTreeMap` is not observable. -/
def groupPerBusAux (now : ℚ) (r : Nat) (log : List (ℚ × CarID × Nat × Nat))
    (ks : List CarID) (f : CarID → List (ℚ × Nat)) :
    List CarID × (CarID → List (ℚ × Nat)) :=
  match log with
  | [] => (ks, f)
  | (t, car, route, stop) :: rest =>
    if now < t then (ks, f)
    else if route = r then
      groupPerBusAux now r rest (insertKey ks car)
        (fun c => if c = car then f c ++ [(t, stop)] else f c)
    else groupPerBusAux now r rest ks f

/-- Phase 2 contribution of one bus: one sample per consecutive pair of its
arrivals, keyed by the second arrival's stop, valued by the time gap. -/
def headwaysInto (evs : List (ℚ × Nat)) (stop : Nat) : Multiset ℚ :=
  Multiset.ofList
    (((consecPairs evs).filter (fun pr => decide (pr.2.2 = stop))).map
      (fun pr => pr.2.1 - pr.1.1))

/-- `Analytics::bus_arrivals` (the query; named with a suffix because the
`bus_arrivals` log field already uses the source name). Returns, per stop,
the `DurationHistogram` content as a multiset. -/
def Analytics.bus_arrivals_delays (a : Analytics) (now : ℚ) (r : Nat) (stop : Nat) :
    Multiset ℚ :=
  let pb := groupPerBusAux now r a.bus_arrivals [] (fun _ => [])
  (pb.1.map (fun c => headwaysInto (pb.2 c) stop)).sum

/-- First-occurrence deduplication (the set of buses seen, each once). -/
def distinctFirst {α : Type} [DecidableEq α] (l : List α) : List α :=
  l.foldl insertKey []

/-- The arrivals of one bus inside a log slice, as `(time, stop)` pairs. -/
def arrivalsOf (rel : List (ℚ × CarID × Nat × Nat)) (c : CarID) : List (ℚ × Nat) :=
  (rel.filter (fun e => decide (e.2.1 = c))).map (fun e => (e.1, e.2.2.2))

/-- The prefix of the log processed before the break, restricted to route
`r` (exactly what the source loop keeps). -/
def relevantTW (now : ℚ) (r : Nat) (log : List (ℚ × CarID × Nat × Nat)) :
    List (ℚ × CarID × Nat × Nat) :=
  (log.takeWhile (fun e => decide (e.1 ≤ now))).filter (fun e => decide (e.2.2.1 = r))

/-- The arrivals with timestamp at most `now` on route `r` (the slice the
claim describes). -/
def relevantArrivals (log : List (ℚ × CarID × Nat × Nat)) (now : ℚ) (r : Nat) :
    List (ℚ × CarID × Nat × Nat) :=
  (log.filter (fun e => decide (e.1 ≤ now))).filter (fun e => decide (e.2.2.1 = r))

/-- Claim C3 as stated: for each bus, one headway sample per pair of
consecutive arrivals of that bus *at the same stop*, into that stop's
distribution. -/
def specBusHeadwaysSameStop (log : List (ℚ × CarID × Nat × Nat)) (now : ℚ)
    (r : Nat) (stop : Nat) : Multiset ℚ :=
  let relevant := relevantArrivals log now r
  let buses := distinctFirst (relevant.map (fun e => e.2.1))
  (buses.map (fun c =>
    let arr := (arrivalsOf relevant c).filter (fun p => decide (p.2 = stop))
    Multiset.ofList ((consecPairs arr).map (fun pr => pr.2.1 - pr.1.1)))).sum

/-- Amended specification: for each bus, one sample per pair of consecutive
arrivals of that bus (at any stops), recorded into the distribution of the
stop of the later arrival. -/
def specBusHeadwaysConsec (log : List (ℚ × CarID × Nat × Nat)) (now : ℚ)
    (r : Nat) (stop : Nat) : Multiset ℚ :=
  let relevant := relevantArrivals log now r
  let buses := distinctFirst (relevant.map (fun e => e.2.1))
  (buses.map (fun c => headwaysInto (arrivalsOf relevant c) stop)).sum

/-! ### Throughput (`Analytics::throughput`) -/

def START_OF_DAY : ℚ := 0

/-- The event loop of `Analytics::throughput` (entity ids modelled as `Nat`;
the source is generic over `X: PartialEq`, instantiated at road and
intersection ids). Skips entries of other entities, breaks at the first
matching entry past `now`, and feeds each kept entry to its mode's window. -/
def throughputLoop (now : ℚ) (obj : Nat) (data : List (ℚ × TripMode × Nat))
    (pts : TripMode → List (ℚ × Nat)) (wins : TripMode → Window) :
    (TripMode → List (ℚ × Nat)) × (TripMode → Window) :=
  match data with
  | [] => (pts, wins)
  | (t, m, x) :: rest =>
    if x ≠ obj then throughputLoop now obj rest pts wins
    else if now < t then (pts, wins)
    else
      let ac := (wins m).add t
      throughputLoop now obj rest
        (fun m1 => if m1 = m then pts m1 ++ [(t, ac.2)] else pts m1)
        (fun m1 => if m1 = m then ac.1 else wins m1)

/-- The tail of `Analytics::throughput`: conditional drop-off sample at
`last + window_size + 0.1` (capped at `now`), then conditional final sample
pinned at `now`. -/
def throughputFinish (now : ℚ) (W : ℚ) (pts : List (ℚ × Nat)) (win : Window) :
    List (ℚ × Nat) :=
  let last1 := pts.getLastD (START_OF_DAY, 0)
  let t := min (last1.1 + W + 1 / 10) now
  let c1 := Window.count win t
  let pts1 := if last1.1 = t then pts else pts ++ [(t, c1.2)]
  let win1 := if last1.1 = t then win else c1.1
  let last2 := pts1.getLastD (START_OF_DAY, 0)
  if last2.1 = now then pts1 else pts1 ++ [(now, (Window.count win1 now).2)]

/-- `Analytics::throughput`, per mode. -/
def throughputFn (now : ℚ) (obj : Nat) (W : ℚ) (data : List (ℚ × TripMode × Nat))
    (m : TripMode) : List (ℚ × Nat) :=
  let st := throughputLoop now obj data
    (fun _ => [(START_OF_DAY, 0)]) (fun _ => Window.new W)
  throughputFinish now W (st.1 m) (st.2 m)

/-- `Analytics::throughput` as a keyed result map (the source's
`BTreeMap<TripMode, Vec<_>>`, whose keys are exactly `TripMode::all`). -/
def throughputMap (now : ℚ) (obj : Nat) (W : ℚ) (data : List (ℚ × TripMode × Nat)) :
    List (TripMode × List (ℚ × Nat)) :=
  TripMode.all.map (fun m => (m, throughputFn now obj W data m))

/-- `Analytics::throughput_road`. -/
def Analytics.throughput_road (a : Analytics) (now : ℚ) (road : Nat) (W : ℚ) :
    List (TripMode × List (ℚ × Nat)) :=
  throughputMap now road W a.thruput_stats.raw_per_road

/-- `Analytics::throughput_intersection`. -/
def Analytics.throughput_intersection (a : Analytics) (now : ℚ) (i : Nat) (W : ℚ) :
    List (TripMode × List (ℚ × Nat)) :=
  throughputMap now i W a.thruput_stats.raw_per_intersection

/-- Replay of a time list through a fresh window: one `(time, count)` sample
per entry, returning the final window as well. -/
def replayGo (w : Window) (times : List ℚ) : List (ℚ × Nat) × Window :=
  match times with
  | [] => ([], w)
  | t :: rest =>
    let ac := w.add t
    let pr := replayGo ac.1 rest
    ((t, ac.2) :: pr.1, pr.2)

/-- The timestamps of the raw events for entity `obj`, mode `m`, with
timestamp at most `now` (the events claim C6 says to replay). -/
def replayTimes (now : ℚ) (obj : Nat) (m : TripMode)
    (data : List (ℚ × TripMode × Nat)) : List ℚ :=
  (data.filter (fun e =>
    decide (e.2.2 = obj) && decide (e.2.1 = m) && decide (e.1 ≤ now))).map
    (fun e => e.1)

/-- Claim C6 as stated: replay the qualifying events through a fresh window,
then unconditionally append the synthetic drop-off sample at
`last + W + 0.1` (or `now` if sooner) and the final sample pinned at `now`.
(The step sequence starts from the `(start-of-day, 0)` sample of C10.) -/
def specReplay (now : ℚ) (W : ℚ) (times : List ℚ) : List (ℚ × Nat) :=
  let pr := replayGo (Window.new W) times
  let pts := (START_OF_DAY, 0) :: pr.1
  let last1 := pts.getLastD (START_OF_DAY, 0)
  let t := min (last1.1 + W + 1 / 10) now
  let c1 := Window.count pr.2 t
  (pts ++ [(t, c1.2)]) ++ [(now, (Window.count c1.1 now).2)]

/-- Amended replay specification: the drop-off sample and the final
now-sample are each appended only when their time differs from the current
last sample's time. -/
def specReplayCond (now : ℚ) (W : ℚ) (times : List ℚ) : List (ℚ × Nat) :=
  let pr := replayGo (Window.new W) times
  let pts := (START_OF_DAY, 0) :: pr.1
  let last1 := pts.getLastD (START_OF_DAY, 0)
  let t := min (last1.1 + W + 1 / 10) now
  let c1 := Window.count pr.2 t
  let pts1 := if last1.1 = t then pts else pts ++ [(t, c1.2)]
  let win1 := if last1.1 = t then pr.2 else c1.1
  let last2 := pts1.getLastD (START_OF_DAY, 0)
  if last2.1 = now then pts1 else pts1 ++ [(now, (Window.count win1 now).2)]

/-- The kept `(time)` entries of the throughput loop for one mode, with the
source's skip/break structure. -/
def keptTimes (now : ℚ) (obj : Nat) (data : List (ℚ × TripMode × Nat))
    (m : TripMode) : List ℚ :=
  match data with
  | [] => []
  | (t, m1, x) :: rest =>
    if x ≠ obj then keptTimes now obj rest m
    else if now < t then []
    else if m1 = m then t :: keptTimes now obj rest m
    else keptTimes now obj rest m

/-! ### Window run invariant (claim C5) -/

/-- After processing `done`, the retained queue is a suffix of the
timestamps added so far, and every evicted timestamp was stale at some
operation time of `done`. -/
def WInv (W : ℚ) (done : List WOp) (w : Window) : Prop :=
  w.window_size = W ∧
  ∃ evicted, addsOf done = evicted ++ w.times ∧
    ∀ ts ∈ evicted, ∃ u ∈ done.map WOp.time, W < u - ts

/-! ### Further concrete inputs for witnesses and counterexamples -/

/-- A map whose every turn belongs to turn group `0`. -/
def mapT : Map := { mapC with get_turn_group := fun _ => some 0 }

def rC8 : Router :=
  ⟨[Traversable.Lane 0, Traversable.Lane 1, Traversable.Lane 2], Goal.StopSuddenly 5⟩

def lC8 : List (Traversable × Bool) :=
  [(Traversable.Lane 0, false), (Traversable.Lane 1, true)]

def rC8f : Router := ⟨[Traversable.Lane 2], Goal.StopSuddenly 5⟩

/-- Bus `1` arrives at stop `1` at time `0` and at stop `2` at time `10`. -/
def A3cex : Analytics :=
  { Analytics.new with
    bus_arrivals := [(0, (1, VehicleType.Bus), 0, 1), (10, (1, VehicleType.Bus), 0, 2)] }

/-- Two buses on route `0`: bus `1` at times `0, 10, 20`, bus `2` at `15`. -/
def A3w : Analytics :=
  { Analytics.new with
    bus_arrivals :=
      [(0, (1, VehicleType.Bus), 0, 1), (10, (1, VehicleType.Bus), 0, 2),
       (15, (2, VehicleType.Bus), 0, 2), (20, (1, VehicleType.Bus), 0, 1)] }

def data6 : List (ℚ × TripMode × Nat) := [(5, TripMode.Drive, 0)]

def data6w : List (ℚ × TripMode × Nat) :=
  [(1, TripMode.Drive, 0), (2, TripMode.Walk, 0), (3, TripMode.Drive, 1)]

/-! ## Theorems -/

/-! ### C7: `stop_suddenly` construction -/

/-- C7: constructing a `StopSuddenly` Router from a non-empty route succeeds
exactly when `end_dist` is strictly below the final segment's length, storing
the inputs unchanged, and panics (`none`) when `end_dist` is at or past it. -/
theorem C7_stop_suddenly (path : List Traversable) (end_dist : Int) (map : Map)
    (h : path ≠ []) :
    (end_dist < map.length (path.getLast h) →
      Router.stop_suddenly path end_dist map = some ⟨path, Goal.StopSuddenly end_dist⟩) ∧
    (map.length (path.getLast h) ≤ end_dist →
      Router.stop_suddenly path end_dist map = none) := by
  have hg : path.getLast? = some (path.getLast h) :=
    List.getLast?_eq_getLast_of_ne_nil h
  constructor
  · intro hlt
    simp [Router.stop_suddenly, hg, not_le.mpr hlt]
  · intro hle
    simp [Router.stop_suddenly, hg, hle]

theorem C7_stop_suddenly_witness :
    ([Traversable.Lane 0] : List Traversable) ≠ [] ∧
    Router.stop_suddenly [Traversable.Lane 0] 40 mapC =
      some ⟨[Traversable.Lane 0], Goal.StopSuddenly 40⟩ :=
  ⟨by decide,
    (C7_stop_suddenly [Traversable.Lane 0] 40 mapC (by decide)).1 (by decide)⟩

/-! ### C4: non-emptiness of the path -/

/-- C4, counterexample to the claim as stated: `advance` is a public
operation, and invoking it on a (validly constructed) single-segment Router
returns normally while leaving the path empty — so a reachable, alive Router
with an empty path exists. -/
theorem C4_counterexample :
    Router.advance (Router.park_near [Traversable.Lane 0] 0) vC parkC mapC =
      some (Traversable.Lane 0, ⟨[], Goal.ParkNearBuilding 0 none⟩, false) := rfl

/-- C4, amended: provided construction starts from a non-empty route and
`advance` is only invoked with at least two remaining segments (the
simulation loop's contract), every reachable Router has a non-empty path. -/
theorem C4_amended (vehicle : Vehicle) (parking : ParkingSimState) (map : Map)
    (r : Router) (h : Reachable vehicle parking map r) : r.path ≠ [] := by
  induction h with
  | construct_stop path end_dist r hsome =>
    rcases hp : path.getLast? with _ | last
    · rw [Router.stop_suddenly, hp] at hsome
      exact absurd hsome (by simp)
    · have hpath : path ≠ [] := by
        intro hnil
        rw [hnil] at hp
        exact absurd hp (by simp)
      simp only [Router.stop_suddenly, hp] at hsome
      by_cases hle : map.length last ≤ end_dist
      · rw [if_pos hle] at hsome
        exact absurd hsome (by simp)
      · rw [if_neg hle] at hsome
        have : r = ⟨path, Goal.StopSuddenly end_dist⟩ := (Option.some.inj hsome).symm
        rw [this]
        exact hpath
  | construct_park path bldg hne =>
    simpa [Router.park_near] using hne
  | step_advance r prev r1 trig hr hlen hadv ih =>
    obtain ⟨p, g⟩ := r
    cases p with
    | nil => simp [Router.advance] at hadv
    | cons a rest =>
      have hrest : rest ≠ [] := by
        have : 1 ≤ rest.length := by
          simp only [List.length_cons] at hlen
          omega
        exact List.ne_nil_of_length_pos this
      by_cases h1 : rest.length = 1
      · rw [Router.advance] at hadv
        simp only [h1, if_pos] at hadv
        rcases hm : Router.maybe_handle_end ⟨rest, g⟩ 0 vehicle parking map with _ | ⟨out, goal1⟩
        · rw [hm] at hadv
          exact absurd hadv (by simp)
        · rw [hm] at hadv
          simp only [Option.some.injEq, Prod.mk.injEq] at hadv
          have : r1 = ⟨rest, goal1⟩ := hadv.2.1.symm
          rw [this]
          exact hrest
      · rw [Router.advance] at hadv
        simp only [h1, if_false] at hadv
        simp only [Option.some.injEq, Prod.mk.injEq] at hadv
        have : r1 = ⟨rest, g⟩ := hadv.2.1.symm
        rw [this]
        exact hrest
  | step_handle r front out goal1 hr hmhe ih =>
    simpa using ih

theorem C4_amended_witness : (Router.park_near [Traversable.Lane 0] 7).path ≠ [] :=
  C4_amended vC parkC mapC _
    (Reachable.construct_park [Traversable.Lane 0] 7 (by decide))

/-! ### C8: advancing `n - 1` times -/

/-- C8: from a Router with `n ≥ 2` path segments, advancing `n - 1` times
(when no advance panics) returns, in order, exactly the first `n - 1`
segments, leaves exactly the final segment, and triggers terminal-action
resolution exactly once — at the final advance. -/
theorem C8_advance_chain (vehicle : Vehicle) (parking : ParkingSimState) (map : Map) :
    ∀ (n : Nat) (r : Router) (l : List (Traversable × Bool)) (r1 : Router),
      r.path.length = n + 2 →
      advanceN vehicle parking map (n + 1) r = some (l, r1) →
      l.map Prod.fst = r.path.take (n + 1) ∧
      l.map Prod.snd = List.replicate n false ++ [true] ∧
      r1.path = r.path.drop (n + 1) ∧
      r1.path.length = 1 := by
  intro n
  induction n with
  | zero =>
    intro r l r1 hlen hrun
    obtain ⟨p, g⟩ := r
    match p, hlen with
    | [a, b], _ =>
      rcases hm : Router.maybe_handle_end ⟨[b], g⟩ 0 vehicle parking map with _ | ⟨out, goal1⟩
      · simp [advanceN, Router.advance, hm] at hrun
      · simp only [advanceN, Router.advance, List.length_cons, List.length_nil,
          if_pos rfl, hm] at hrun
        obtain ⟨hl, hr⟩ := Prod.mk.injEq .. ▸ Option.some.inj hrun
        subst hl
        subst hr
        refine ⟨rfl, rfl, rfl, rfl⟩
  | succ n ih =>
    intro r l r1 hlen hrun
    obtain ⟨p, g⟩ := r
    cases p with
    | nil => simp at hlen
    | cons a rest =>
      have hrl : rest.length = n + 2 := by
        simp only [List.length_cons] at hlen
        omega
      have hne1 : ¬ rest.length = 1 := by omega
      have hadv : Router.advance ⟨a :: rest, g⟩ vehicle parking map =
          some (a, ⟨rest, g⟩, false) := by
        simp [Router.advance, hne1]
      rw [advanceN, hadv] at hrun
      rcases hrec : advanceN vehicle parking map (n + 1) ⟨rest, g⟩ with _ | ⟨l1, r2⟩
      · simp only [hrec] at hrun
        exact absurd hrun (by simp)
      · simp only [hrec, Option.some.injEq, Prod.mk.injEq] at hrun
        obtain ⟨hl, hr⟩ := hrun
        subst hl
        subst hr
        obtain ⟨ih1, ih2, ih3, ih4⟩ := ih ⟨rest, g⟩ l1 r2 hrl hrec
        refine ⟨?_, ?_, ?_, ih4⟩
        · simp only [List.map_cons, ih1]
          rfl
        · simp only [List.map_cons, ih2, List.replicate_succ, List.cons_append]
        · simpa using ih3

theorem C8_advance_chain_witness :
    rC8.path.length = 1 + 2 ∧
    advanceN vC parkC mapC 2 rC8 = some (lC8, rC8f) ∧
    lC8.map Prod.snd = List.replicate 1 false ++ [true] ∧
    rC8f.path.length = 1 :=
  ⟨rfl, by decide,
    (C8_advance_chain vC parkC mapC 1 rC8 lC8 rC8f rfl (by decide)).2.1,
    (C8_advance_chain vC parkC mapC 1 rC8 lC8 rC8f rfl (by decide)).2.2.2⟩

/-! ### C1: the parking re-resolution condition is inverted in the code -/

/-- C1 (code bug): with a cached spot `3` that the occupancy collaborator
reports as *not* free (`is_free 3 = false`, another vehicle took it) and a
different free spot `7` available, `maybe_handle_end` skips re-resolution and
starts parking at the stale spot `3`; conversely, when the cached spot *is*
still free (`is_free 3 = true`), it re-queries the collaborator and replaces
the cached pair `(3, 5)` by `(7, 9)`. The source computes
`need_new_spot = parking.is_free(spot)` instead of its negation
(`router.rs` line 128), inverting the condition the claim (and §4.2 of the
spec) state. -/
theorem C1_code_eval :
    Router.maybe_handle_end routerC1 5 vC parkC mapC =
      some (some (ActionAtEnd.StartParking 3), Goal.ParkNearBuilding 0 (some (3, 5))) ∧
    parkC.is_free 3 = false ∧
    Router.maybe_handle_end routerC1 5 vC parkFree mapC =
      some (none, Goal.ParkNearBuilding 0 (some (7, 9))) ∧
    parkFree.is_free 3 = true :=
  ⟨by decide, rfl, by decide, rfl⟩

/-! ### C9: ingestion disabled is a no-op -/

/-- C9: a `Default`-built Analytics has ingestion disabled, and on any
Analytics with ingestion disabled the ingestion entry point returns the state
unchanged, for every event, timestamp, and map. -/
theorem C9_event_noop :
    Analytics.default.record_anything = false ∧
    ∀ (a : Analytics) (ev : Event) (time : ℚ) (map : Map),
      a.record_anything = false → a.event ev time map = a := by
  refine ⟨rfl, ?_⟩
  intro a ev time map h
  simp [Analytics.event, h]

theorem C9_event_noop_witness :
    Analytics.default.record_anything = false ∧
    Analytics.default.event (Event.TripAborted 0) 0 mapC = Analytics.default :=
  ⟨rfl, C9_event_noop.2 Analytics.default (Event.TripAborted 0) 0 mapC rfl⟩

/-! ### C2: the demand counter -/

theorem demand_foldl_spec (map : Map) (g : Nat) :
    ∀ (steps : List PathStep) (d : Nat → Nat), d g < USIZE →
      (steps.foldl (demandStepUpd map) d) g =
        (d g + demandCountSteps map g steps) % USIZE := by
  intro steps
  induction steps with
  | nil =>
    intro d hd
    simp [demandCountSteps, Nat.mod_eq_of_lt hd]
  | cons s rest ih =>
    intro d hd
    rw [List.foldl_cons]
    rcases hs : s.as_traversable with l | t
    · have hupd : demandStepUpd map d s = d := by
        rw [demandStepUpd, hs]
      have hcnt : demandCountSteps map g (s :: rest) = demandCountSteps map g rest := by
        rw [demandCountSteps, demandCountSteps, List.filter_cons_of_neg (by simp [hs])]
      rw [hupd, hcnt, ih d hd]
    · rcases ht : map.get_turn_group t with _ | id
      · have hupd : demandStepUpd map d s = d := by
          simp [demandStepUpd, hs, ht]
        have hcnt : demandCountSteps map g (s :: rest) = demandCountSteps map g rest := by
          rw [demandCountSteps, demandCountSteps, List.filter_cons_of_neg (by simp [hs, ht])]
        rw [hupd, hcnt, ih d hd]
      · have hupd : demandStepUpd map d s =
            fun g1 => if g1 = id then wrapInc (d g1) else d g1 := by
          simp [demandStepUpd, hs, ht]
        rw [hupd]
        by_cases hg : g = id
        · subst hg
          have hd1 : wrapInc (d g) < USIZE := Nat.mod_lt _ (by norm_num [USIZE])
          have hrw := ih (fun g1 => if g1 = g then wrapInc (d g1) else d g1)
            (by simpa using hd1)
          simp only [eq_self_iff_true, if_true] at hrw
          rw [hrw]
          have hcnt : demandCountSteps map g (s :: rest) =
              demandCountSteps map g rest + 1 := by
            rw [demandCountSteps, demandCountSteps,
              List.filter_cons_of_pos (by simp [hs, ht]), List.length_cons]
          rw [hcnt, wrapInc, Nat.mod_add_mod]
          congr 1
          omega
        · have hrw := ih (fun g1 => if g1 = id then wrapInc (d g1) else d g1)
            (by simpa [hg] using hd)
          simp only [hg, if_false] at hrw
          rw [hrw]
          have hcnt : demandCountSteps map g (s :: rest) = demandCountSteps map g rest := by
            rw [demandCountSteps, demandCountSteps,
              List.filter_cons_of_neg (by simp [hs, ht, Ne.symm hg])]
          rw [hcnt]

/-- C2, amended: the per-turn-group demand counter is an unsigned (usize)
counter with wrapping arithmetic, not a signed one. When ingestion is
enabled, its value at any group `g` after ingesting an event is exactly
`demandAfter`: an agent-entered-turn event applies a wrapping decrement to
the mapped group (the only decrement path; at zero the value wraps to
`2 ^ 64 - 1` rather than going negative — debug builds abort), a
path-amended event applies one wrapping increment per mapped movement step
of the new route (the only increment path), and every other event leaves
every group unchanged. -/
theorem C2_amended (a : Analytics) (ev : Event) (time : ℚ) (map : Map) (g : Nat)
    (ha : a.record_anything = true) (hg : a.thruput_stats.demand g < USIZE) :
    (a.event ev time map).thruput_stats.demand g = demandAfter a ev map g := by
  cases ev with
  | AgentEntersTraversable ag dest =>
    cases dest with
    | Lane l => simp [Analytics.event, demandAfter, ha]
    | Turn t =>
      rcases ht : map.get_turn_group t with _ | id
      · simp [Analytics.event, demandAfter, ha, ht]
      · simp [Analytics.event, demandAfter, ha, ht]
  | PathAmended p =>
    simp only [Analytics.event, demandAfter, ha, Bool.true_eq_false, if_false,
      Analytics.record_demand]
    exact demand_foldl_spec map g p.steps a.thruput_stats.demand hg
  | BusArrivedAtStop bus route stop => simp [Analytics.event, demandAfter, ha]
  | PedReachedBusStop ped stop route => simp [Analytics.event, demandAfter, ha]
  | TripFinished trip mode dt => simp [Analytics.event, demandAfter, ha]
  | TripAborted trip => simp [Analytics.event, demandAfter, ha]
  | IntersectionDelayMeasured i delay => simp [Analytics.event, demandAfter, ha]
  | TripPhaseStarting trip req metadata => simp [Analytics.event, demandAfter, ha]

theorem C2_amended_witness :
    Analytics.new.record_anything = true ∧
    Analytics.new.thruput_stats.demand 0 < USIZE ∧
    (Analytics.new.event
        (Event.AgentEntersTraversable (AgentID.Car (0, VehicleType.Car))
          (Traversable.Turn ⟨0, 0, 0⟩)) 0 mapT).thruput_stats.demand 0 =
      demandAfter Analytics.new
        (Event.AgentEntersTraversable (AgentID.Car (0, VehicleType.Car))
          (Traversable.Turn ⟨0, 0, 0⟩)) mapT 0 :=
  ⟨rfl, by decide,
    C2_amended Analytics.new
      (Event.AgentEntersTraversable (AgentID.Car (0, VehicleType.Car))
        (Traversable.Turn ⟨0, 0, 0⟩)) 0 mapT 0 rfl (by decide)⟩

/-- C2, counterexample to the claim as stated: the demand value is a usize,
so ingesting an agent-entered-turn event while the mapped group's demand is
zero leaves `2 ^ 64 - 1` (wrapping), not a negative value — the counter is
not "signed" and cannot "go negative during transients". -/
theorem C2_counterexample :
    Analytics.new.thruput_stats.demand 0 = 0 ∧
    (Analytics.new.event
        (Event.AgentEntersTraversable (AgentID.Car (0, VehicleType.Car))
          (Traversable.Turn ⟨0, 0, 0⟩)) 0 mapT).thruput_stats.demand 0 =
      2 ^ 64 - 1 :=
  ⟨rfl, by rfl⟩

/-! ### C5: the sliding window -/

theorem addsOf_append (l1 l2 : List WOp) : addsOf (l1 ++ l2) = addsOf l1 ++ addsOf l2 := by
  induction l1 with
  | nil => simp [addsOf]
  | cons op rest ih =>
    cases op with
    | add t => simp [addsOf, ih]
    | count t => simp [addsOf, ih]

theorem addsOf_sublist (ops : List WOp) : List.Sublist (addsOf ops) (ops.map WOp.time) := by
  induction ops with
  | nil => simp [addsOf]
  | cons op rest ih =>
    cases op with
    | add t => exact List.Sublist.cons₂ _ ih
    | count t => exact List.Sublist.cons _ ih

theorem winv_step (W : ℚ) (done : List WOp) (w : Window) (op : WOp)
    (h : WInv W done w) : WInv W (done ++ [op]) (w.step op) := by
  obtain ⟨hW, evicted, hsplit, hcond⟩ := h
  cases op with
  | add t =>
    refine ⟨hW,
      evicted ++ (w.times ++ [t]).takeWhile (fun ts => decide (w.window_size < t - ts)),
      ?_, ?_⟩
    · rw [addsOf_append, hsplit]
      simp only [Window.step, Window.add, Window.count, addsOf,
        List.append_assoc, List.takeWhile_append_dropWhile]
    · intro ts hts
      rw [List.mem_append] at hts
      rcases hts with hts | hts
      · obtain ⟨u, hu, hlt⟩ := hcond ts hts
        refine ⟨u, ?_, hlt⟩
        rw [List.map_append]
        exact List.mem_append_left _ hu
      · have hp : w.window_size < t - ts := by
          simpa using List.mem_takeWhile_imp hts
        refine ⟨t, ?_, by rw [← hW]; exact hp⟩
        rw [List.map_append]
        exact List.mem_append_right _ (by simp [WOp.time])
  | count t =>
    refine ⟨hW,
      evicted ++ w.times.takeWhile (fun ts => decide (w.window_size < t - ts)),
      ?_, ?_⟩
    · rw [addsOf_append, hsplit]
      simp only [Window.step, Window.count, addsOf,
        List.append_assoc, List.takeWhile_append_dropWhile, List.append_nil]
    · intro ts hts
      rw [List.mem_append] at hts
      rcases hts with hts | hts
      · obtain ⟨u, hu, hlt⟩ := hcond ts hts
        refine ⟨u, ?_, hlt⟩
        rw [List.map_append]
        exact List.mem_append_left _ hu
      · have hp : w.window_size < t - ts := by
          simpa using List.mem_takeWhile_imp hts
        refine ⟨t, ?_, by rw [← hW]; exact hp⟩
        rw [List.map_append]
        exact List.mem_append_right _ (by simp [WOp.time])

theorem winv_run (W : ℚ) (ops : List WOp) : WInv W ops (runOps W ops) := by
  have main : ∀ (l : List WOp) (done : List WOp) (w : Window), WInv W done w →
      WInv W (done ++ l) (l.foldl Window.step w) := by
    intro l
    induction l with
    | nil =>
      intro done w h
      simpa using h
    | cons op rest ih =>
      intro done w h
      have h2 := ih (done ++ [op]) (w.step op) (winv_step W done w op h)
      simpa [List.append_assoc] using h2
  have h0 : WInv W [] (Window.new W) :=
    ⟨rfl, [], by simp [addsOf, Window.new], by simp⟩
  simpa using main ops [] (Window.new W) h0

theorem dropWhile_sorted_eq_filter (t W : ℚ) :
    ∀ (l : List ℚ), l.Pairwise (· ≤ ·) →
      l.dropWhile (fun ts => decide (W < t - ts)) =
        l.filter (fun ts => decide (t - ts ≤ W)) := by
  intro l
  induction l with
  | nil => simp
  | cons a l ih =>
    intro h
    rw [List.pairwise_cons] at h
    obtain ⟨ha, h2⟩ := h
    by_cases hc : W < t - a
    · rw [List.dropWhile_cons_of_pos (by simp only [decide_eq_true_eq]; exact hc),
        List.filter_cons_of_neg (by simp only [decide_eq_true_eq]; exact not_le.mpr hc)]
      exact ih h2
    · rw [List.dropWhile_cons_of_neg (by simp only [decide_eq_true_eq]; exact hc),
        List.filter_cons_of_pos (by simp only [decide_eq_true_eq]; exact not_lt.mp hc)]
      congr 1
      refine (List.filter_eq_self.mpr ?_).symm
      intro b hb
      have hab := ha b hb
      have hba : t - b ≤ W := by
        have h1 : t - a ≤ W := not_lt.mp hc
        linarith
      simpa using hba

/-- C5, amended: if the merged sequence of operation times (adds and counts
alike) is non-decreasing and the final query time `t` is at least every
earlier operation time, then `count t` returns the number of *all*
timestamps added so far with `t - ts ≤ W`, and every retained timestamp `ts`
satisfies `t - ts ≤ W`. -/
theorem C5_amended (W : ℚ) (ops : List WOp) (t : ℚ)
    (hmono : List.Pairwise (· ≤ ·) (ops.map WOp.time ++ [t])) :
    ((runOps W ops).count t).2 =
      ((addsOf ops).filter (fun ts => decide (t - ts ≤ W))).length ∧
    ∀ ts ∈ ((runOps W ops).count t).1.times, t - ts ≤ W := by
  obtain ⟨hW, evicted, hsplit, hcond⟩ := winv_run W ops
  have hops : List.Pairwise (· ≤ ·) (ops.map WOp.time) :=
    (List.pairwise_append.mp hmono).1
  have hbound : ∀ u ∈ ops.map WOp.time, u ≤ t := by
    intro u hu
    exact (List.pairwise_append.mp hmono).2.2 u hu t (by simp)
  have hadds : List.Pairwise (· ≤ ·) (addsOf ops) :=
    List.Pairwise.sublist (addsOf_sublist ops) hops
  have htimes : List.Pairwise (· ≤ ·) (runOps W ops).times := by
    rw [hsplit] at hadds
    exact (List.pairwise_append.mp hadds).2.1
  have hcount : ((runOps W ops).count t).1.times =
      (runOps W ops).times.filter (fun ts => decide (t - ts ≤ W)) := by
    show (runOps W ops).times.dropWhile
        (fun ts => decide ((runOps W ops).window_size < t - ts)) = _
    rw [hW]
    exact dropWhile_sorted_eq_filter t W _ htimes
  have hevict : evicted.filter (fun ts => decide (t - ts ≤ W)) = [] := by
    rw [List.filter_eq_nil_iff]
    intro ts hts
    obtain ⟨u, hu, hlt⟩ := hcond ts hts
    have hut : u ≤ t := hbound u hu
    simp only [decide_eq_true_eq]
    intro hle
    linarith
  constructor
  · show ((runOps W ops).count t).1.times.length = _
    rw [hcount, hsplit, List.filter_append, hevict, List.nil_append]
  · intro ts hts
    rw [hcount] at hts
    simpa using (List.mem_filter.mp hts).2

/-- C5, counterexample to the claim as stated: with `W = 50`, adds at times
`0, 100` (non-decreasing) and a single count query at time `10`
(trivially non-decreasing), the code answers `1`, but the number of all
added timestamps `ts` with `10 - ts ≤ 50` is `2`: the add at time `100`
evicted the timestamp `0`, which the later query at time `10` should count. -/
theorem C5_counterexample :
    List.Pairwise (· ≤ ·) (addsOf [WOp.add 0, WOp.add 100]) ∧
    ((runOps 50 [WOp.add 0, WOp.add 100]).count 10).2 = 1 ∧
    ((addsOf [WOp.add 0, WOp.add 100]).filter
      (fun ts => decide ((10 : ℚ) - ts ≤ 50))).length = 2 := by
  refine ⟨?_, ?_, ?_⟩
  · norm_num [addsOf]
  · norm_num [runOps, Window.step, Window.add, Window.count, Window.new,
      List.dropWhile]
  · norm_num [addsOf]

theorem C5_amended_witness :
    List.Pairwise (· ≤ ·) ([WOp.add 0, WOp.add 30].map WOp.time ++ [60]) ∧
    ((runOps 50 [WOp.add 0, WOp.add 30]).count 60).2 = 1 := by
  have hm : List.Pairwise (· ≤ ·) ([WOp.add 0, WOp.add 30].map WOp.time ++ [(60 : ℚ)]) := by
    norm_num [WOp.time]
  refine ⟨hm, ?_⟩
  rw [(C5_amended 50 [WOp.add 0, WOp.add 30] 60 hm).1]
  norm_num [addsOf]

/-! ### C3: bus arrival delays -/

theorem takeWhile_eq_filter_sorted {α : Type} (f : α → ℚ) (now : ℚ) :
    ∀ (l : List α), List.Pairwise (fun x y => f x ≤ f y) l →
      l.takeWhile (fun e => decide (f e ≤ now)) =
        l.filter (fun e => decide (f e ≤ now)) := by
  intro l
  induction l with
  | nil => simp
  | cons a l ih =>
    intro h
    rw [List.pairwise_cons] at h
    obtain ⟨ha, h2⟩ := h
    by_cases hc : f a ≤ now
    · rw [List.takeWhile_cons_of_pos (by simp only [decide_eq_true_eq]; exact hc),
        List.filter_cons_of_pos (by simp only [decide_eq_true_eq]; exact hc), ih h2]
    · rw [List.takeWhile_cons_of_neg (by simp only [decide_eq_true_eq]; exact hc),
        List.filter_cons_of_neg (by simp only [decide_eq_true_eq]; exact hc)]
      symm
      rw [List.filter_eq_nil_iff]
      intro b hb
      simp only [decide_eq_true_eq]
      intro hle
      exact hc (le_trans (ha b hb) hle)

theorem groupPerBusAux_spec (now : ℚ) (r : Nat) :
    ∀ (log : List (ℚ × CarID × Nat × Nat)) (ks : List CarID)
      (f : CarID → List (ℚ × Nat)),
      groupPerBusAux now r log ks f =
        (((relevantTW now r log).map (fun e => e.2.1)).foldl insertKey ks,
          fun c => f c ++ arrivalsOf (relevantTW now r log) c) := by
  intro log
  induction log with
  | nil =>
    intro ks f
    simp [groupPerBusAux, relevantTW, arrivalsOf]
  | cons e rest ih =>
    obtain ⟨t, car, route, stop⟩ := e
    intro ks f
    by_cases h1 : now < t
    · have hTW : relevantTW now r ((t, car, route, stop) :: rest) = [] := by
        rw [relevantTW,
          List.takeWhile_cons_of_neg (by simp only [decide_eq_true_eq]; exact not_le.mpr h1)]
        rfl
      simp only [groupPerBusAux, if_pos h1, hTW, List.map_nil, List.foldl_nil,
        arrivalsOf, List.filter_nil, List.append_nil]
    · by_cases h2 : route = r
      · have hTW : relevantTW now r ((t, car, route, stop) :: rest) =
            (t, car, route, stop) :: relevantTW now r rest := by
          rw [relevantTW,
            List.takeWhile_cons_of_pos (by simp only [decide_eq_true_eq]; exact not_lt.mp h1),
            List.filter_cons_of_pos (by simp only [decide_eq_true_eq]; exact h2)]
          rfl
        simp only [groupPerBusAux, if_neg h1, if_pos h2, hTW, List.map_cons,
          List.foldl_cons, ih]
        refine Prod.ext rfl ?_
        funext c
        by_cases hc : c = car
        · subst hc
          have haOf : arrivalsOf ((t, c, route, stop) :: relevantTW now r rest) c =
              (t, stop) :: arrivalsOf (relevantTW now r rest) c := by
            rw [arrivalsOf, List.filter_cons_of_pos (by simp), List.map_cons]
            rfl
          simp [haOf, List.append_assoc]
        · have haOf : arrivalsOf ((t, car, route, stop) :: relevantTW now r rest) c =
              arrivalsOf (relevantTW now r rest) c := by
            rw [arrivalsOf, List.filter_cons_of_neg
              (by simp only [decide_eq_true_eq]; exact fun h => hc h.symm)]
            rfl
          simp [hc, haOf]
      · have hTW : relevantTW now r ((t, car, route, stop) :: rest) =
            relevantTW now r rest := by
          rw [relevantTW,
            List.takeWhile_cons_of_pos (by simp only [decide_eq_true_eq]; exact not_lt.mp h1),
            List.filter_cons_of_neg (by simp only [decide_eq_true_eq]; exact h2)]
          rfl
        simp only [groupPerBusAux, if_neg h1, if_neg h2, hTW, ih]

/-- C3, amended: for a time-sorted bus-arrivals log, the bus-arrival-delay
query at `now` for route `r` groups the arrivals with timestamp at most
`now` on route `r` by bus vehicle and, for each bus, records one sample per
pair of *consecutive arrivals of that bus at any stops*, equal to the gap
between the two arrival times, into the distribution of the stop of the
*later* arrival. -/
theorem C3_amended (a : Analytics) (now : ℚ) (r : Nat)
    (hsort : List.Pairwise (· ≤ ·) (a.bus_arrivals.map (fun e => e.1)))
    (stop : Nat) :
    a.bus_arrivals_delays now r stop = specBusHeadwaysConsec a.bus_arrivals now r stop := by
  have hTF : relevantTW now r a.bus_arrivals = relevantArrivals a.bus_arrivals now r := by
    unfold relevantTW relevantArrivals
    congr 1
    exact takeWhile_eq_filter_sorted (α := ℚ × CarID × Nat × Nat) (fun e => e.1) now _
      (List.pairwise_map.mp hsort)
  rw [Analytics.bus_arrivals_delays, groupPerBusAux_spec, hTF, specBusHeadwaysConsec,
    distinctFirst]
  simp only [List.nil_append]

theorem C3_amended_witness :
    List.Pairwise (· ≤ ·) (A3w.bus_arrivals.map (fun e => e.1)) ∧
    A3w.bus_arrivals_delays 20 0 1 = specBusHeadwaysConsec A3w.bus_arrivals 20 0 1 := by
  have hs : List.Pairwise (· ≤ ·) (A3w.bus_arrivals.map (fun e => e.1)) := by
    norm_num [A3w, Analytics.new]
  exact ⟨hs, C3_amended A3w 20 0 hs 1⟩

/-- C3, counterexample to the claim as stated: bus `1` arrives at stop `1`
at time `0` and at stop `2` at time `10`. There is no pair of consecutive
arrivals of that bus at the *same* stop, so the claim's reading yields no
sample anywhere; the code nevertheless records the gap `10` into stop `2`'s
distribution (the pairing is over consecutive arrivals at any stops, keyed
by the later stop). -/
theorem C3_counterexample :
    List.Pairwise (· ≤ ·) (A3cex.bus_arrivals.map (fun e => e.1)) ∧
    A3cex.bus_arrivals_delays 10 0 2 = ({10} : Multiset ℚ) ∧
    specBusHeadwaysSameStop A3cex.bus_arrivals 10 0 2 = 0 := by
  refine ⟨by norm_num [A3cex, Analytics.new], ?_, ?_⟩
  · norm_num [A3cex, Analytics.new, Analytics.bus_arrivals_delays, groupPerBusAux,
      insertKey, headwaysInto, consecPairs]
  · norm_num [A3cex, Analytics.new, specBusHeadwaysSameStop, relevantArrivals,
      distinctFirst, insertKey, arrivalsOf, consecPairs]

/-! ### C6 and C10: the throughput query -/

theorem throughputLoop_spec (now : ℚ) (obj : Nat) :
    ∀ (data : List (ℚ × TripMode × Nat)) (pts : TripMode → List (ℚ × Nat))
      (wins : TripMode → Window) (m : TripMode),
      (throughputLoop now obj data pts wins).1 m =
        pts m ++ (replayGo (wins m) (keptTimes now obj data m)).1 ∧
      (throughputLoop now obj data pts wins).2 m =
        (replayGo (wins m) (keptTimes now obj data m)).2 := by
  intro data
  induction data with
  | nil =>
    intro pts wins m
    simp [throughputLoop, keptTimes, replayGo]
  | cons e rest ih =>
    obtain ⟨t, m1, x⟩ := e
    intro pts wins m
    by_cases hx : x ≠ obj
    · simp only [throughputLoop, keptTimes, if_pos hx]
      exact ih pts wins m
    · by_cases ht : now < t
      · simp only [throughputLoop, keptTimes, if_neg hx, if_pos ht]
        simp [replayGo]
      · simp only [throughputLoop, keptTimes, if_neg hx, if_neg ht]
        by_cases hm : m1 = m
        · subst hm
          obtain ⟨ih1, ih2⟩ := ih
            (fun m2 => if m2 = m1 then pts m2 ++ [(t, ((wins m1).add t).2)] else pts m2)
            (fun m2 => if m2 = m1 then ((wins m1).add t).1 else wins m2) m1
          simp only [if_pos rfl] at ih1 ih2
          refine ⟨?_, ?_⟩
          · rw [ih1]
            simp [replayGo, List.append_assoc]
          · rw [ih2]
            simp [replayGo]
        · obtain ⟨ih1, ih2⟩ := ih
            (fun m2 => if m2 = m1 then pts m2 ++ [(t, ((wins m1).add t).2)] else pts m2)
            (fun m2 => if m2 = m1 then ((wins m1).add t).1 else wins m2) m
          have hmne : ¬ m = m1 := fun h => hm h.symm
          simp only [if_neg hmne] at ih1 ih2
          constructor
          · rw [if_neg hm]
            exact ih1
          · rw [if_neg hm]
            exact ih2

theorem replayTimes_cons_keep (now : ℚ) (obj : Nat) (m : TripMode) (t : ℚ)
    (m1 : TripMode) (x : Nat) (rest : List (ℚ × TripMode × Nat))
    (h : (x = obj ∧ m1 = m) ∧ t ≤ now) :
    replayTimes now obj m ((t, m1, x) :: rest) = t :: replayTimes now obj m rest := by
  simp only [replayTimes, List.filter_cons, Bool.and_eq_true, decide_eq_true_eq]
  rw [if_pos h]
  rfl

theorem replayTimes_cons_skip (now : ℚ) (obj : Nat) (m : TripMode) (t : ℚ)
    (m1 : TripMode) (x : Nat) (rest : List (ℚ × TripMode × Nat))
    (h : ¬ ((x = obj ∧ m1 = m) ∧ t ≤ now)) :
    replayTimes now obj m ((t, m1, x) :: rest) = replayTimes now obj m rest := by
  simp only [replayTimes, List.filter_cons, Bool.and_eq_true, decide_eq_true_eq]
  rw [if_neg h]

theorem keptTimes_eq_replayTimes (now : ℚ) (obj : Nat) (m : TripMode) :
    ∀ (data : List (ℚ × TripMode × Nat)),
      List.Pairwise (· ≤ ·) (data.map (fun e => e.1)) →
      keptTimes now obj data m = replayTimes now obj m data := by
  intro data
  induction data with
  | nil => simp [keptTimes, replayTimes]
  | cons e rest ih =>
    obtain ⟨t, m1, x⟩ := e
    intro hsort
    rw [List.map_cons, List.pairwise_cons] at hsort
    obtain ⟨hbd, hsort2⟩ := hsort
    by_cases hx : x ≠ obj
    · simp only [keptTimes, if_pos hx]
      rw [ih hsort2, replayTimes_cons_skip _ _ _ _ _ _ _ (fun hcon => hx hcon.1.1)]
    · by_cases ht : now < t
      · simp only [keptTimes, if_neg hx, if_pos ht]
        have hnil : replayTimes now obj m ((t, m1, x) :: rest) = [] := by
          rw [replayTimes, List.map_eq_nil_iff, List.filter_eq_nil_iff]
          intro b hb
          simp only [Bool.and_eq_true, decide_eq_true_eq]
          intro hcon
          rcases List.mem_cons.mp hb with hb1 | hb2
          · rw [hb1] at hcon
            exact absurd hcon.2 (not_le.mpr ht)
          · have hbt : t ≤ b.1 := hbd b.1 (List.mem_map_of_mem _ hb2)
            have hble : ¬ b.1 ≤ now := by linarith
            exact absurd hcon.2 hble
        rw [hnil]
      · by_cases hm : m1 = m
        · subst hm
          simp only [keptTimes, if_neg hx, if_neg ht, if_pos rfl]
          rw [ih hsort2, replayTimes_cons_keep _ _ _ _ _ _ _
            ⟨⟨not_not.mp hx, rfl⟩, not_lt.mp ht⟩]
          simp only [if_true]
        · simp only [keptTimes, if_neg hx, if_neg ht, if_neg hm]
          rw [ih hsort2, replayTimes_cons_skip _ _ _ _ _ _ _ (fun hcon => hm hcon.1.2)]

/-- C6, amended: for a time-sorted raw throughput log, the throughput query
produces, per mode, exactly the step sequence of replaying the qualifying
raw events through a fresh Window, with the synthetic drop-off sample and
the final now-sample each appended only when their time differs from the
current last sample's time (and with every sequence starting from the
initial `(start-of-day, 0)` sample). -/
theorem C6_amended (now W : ℚ) (obj : Nat) (data : List (ℚ × TripMode × Nat))
    (hsort : List.Pairwise (· ≤ ·) (data.map (fun e => e.1))) (m : TripMode) :
    throughputFn now obj W data m = specReplayCond now W (replayTimes now obj m data) := by
  obtain ⟨h1, h2⟩ := throughputLoop_spec now obj data
    (fun _ => [(START_OF_DAY, 0)]) (fun _ => Window.new W) m
  rw [throughputFn, h1, h2, keptTimes_eq_replayTimes now obj m data hsort]
  rfl

/-- C6, counterexample to the claim as stated: a single `Drive` event for
entity `0` at time `5`, queried at `now = 5` with `W = 1`. The code emits no
drop-off and no final sample (both would duplicate the last sample's time
`5`), while the claim's unconditional replay appends both. -/
theorem C6_counterexample :
    List.Pairwise (· ≤ ·) (data6.map (fun e => e.1)) ∧
    throughputFn 5 0 1 data6 TripMode.Drive = [(START_OF_DAY, 0), (5, 1)] ∧
    specReplay 5 1 (replayTimes 5 0 TripMode.Drive data6) =
      [(START_OF_DAY, 0), (5, 1), (5, 1), (5, 1)] := by
  refine ⟨by norm_num [data6], ?_, ?_⟩
  · norm_num [data6, throughputFn, throughputLoop, throughputFinish, Window.new,
      Window.add, Window.count, List.dropWhile, START_OF_DAY]
  · norm_num [data6, specReplay, replayTimes, replayGo, Window.new, Window.add,
      Window.count, List.dropWhile, START_OF_DAY]

theorem C6_amended_witness :
    List.Pairwise (· ≤ ·) (data6w.map (fun e => e.1)) ∧
    throughputFn 10 0 2 data6w TripMode.Drive =
      specReplayCond 10 2 (replayTimes 10 0 TripMode.Drive data6w) := by
  have hs : List.Pairwise (· ≤ ·) (data6w.map (fun e => e.1)) := by
    norm_num [data6w]
  exact ⟨hs, C6_amended 10 2 0 data6w hs TripMode.Drive⟩

theorem throughputFinish_head (now W : ℚ) (a : ℚ × Nat) (l : List (ℚ × Nat))
    (win : Window) : (throughputFinish now W (a :: l) win).head? = some a := by
  have hstep : ∀ (c : Prop) (inst : Decidable c) (p : List (ℚ × Nat)) (x b : ℚ × Nat),
      p.head? = some b → (@ite _ c inst p (p ++ [x])).head? = some b := by
    intro c inst p x b hp
    split
    · exact hp
    · cases p with
      | nil => simp at hp
      | cons q qs => simpa using hp
  simp only [throughputFinish]
  apply hstep
  apply hstep
  rfl

/-- C10: the throughput result map has an entry for every trip mode, and
every mode's sample sequence begins with the `(start-of-day, 0)` sample,
whatever the raw log, entity, window and query time. -/
theorem C10_throughput_modes (now : ℚ) (obj : Nat) (W : ℚ)
    (data : List (ℚ × TripMode × Nat)) (m : TripMode) :
    (throughputMap now obj W data).lookup m = some (throughputFn now obj W data m) ∧
    (throughputFn now obj W data m).head? = some (START_OF_DAY, 0) := by
  constructor
  · cases m <;> rfl
  · obtain ⟨h1, h2⟩ := throughputLoop_spec now obj data
      (fun _ => [(START_OF_DAY, 0)]) (fun _ => Window.new W) m
    rw [throughputFn, h1]
    exact throughputFinish_head now W (START_OF_DAY, 0)
      (replayGo (Window.new W) (keptTimes now obj data m)).1 _

end ABStreet
